import Mathlib

/-!
Verification of the content indexing and rendering pipeline of the
I-3B/portfolio blog (Next.js app).  The embedding follows the two route
components `src/app/blog/page.tsx` (listing page) and
`src/app/blog/[slug]/page.tsx` (detail page).  The helper modules that
they pull in (`@/validation/blog`, `@/utils/utils`, `@/utils/md`,
`@/constants/flags`) and the third-party slugging plugin (`rehype-slug`)
are not part of the source tree given here; those parts are modelled
from the design specification and are marked as such in their doc
comments.  Dates are modelled as natural numbers (e.g. the day
`2024-06-01` as `20240601`): the front-matter date format `YYYY-MM-DD`
makes chronological order coincide with this numeric order.
-/

namespace Portfolio

/-- Raw `tags` value as it appears in the front matter: either a single
bare string or a list of strings (spec §6: `tags: <string | list of strings>`). -/
inductive RawTags where
  | one (s : String)
  | many (xs : List String)
deriving DecidableEq, Repr

/-- Modelled from the spec: RawMetadataRecord (§3) — the front-matter
record as decoded by the document parser (`readMdFile` of `@/utils/md`,
missing from src/), before schema validation.  Each field is optional
because the raw record is an arbitrary key-value mapping. -/
structure RawMatter where
  title : Option String
  summary : Option String
  publishedAt : Option Nat
  updatedAt : Option Nat
  tags : Option RawTags
  draft : Option Bool
deriving DecidableEq, Repr

/-- Modelled from the spec: ValidatedMetadata (§3) — the schema-checked
front matter.  Required: `title` (non-empty), `summary`, `publishedAt`,
`tags` (ordered sequence, possibly empty).  Optional: `updatedAt`;
`draft` defaults to `false`. -/
structure BlogMatter where
  title : String
  summary : String
  publishedAt : Nat
  updatedAt : Option Nat
  tags : List String
  draft : Bool
deriving DecidableEq, Repr

/-- Validation failure kinds (spec §4.1 `ValidationError`). -/
inductive ValidationError where
  | missingField (name : String)
  | invalidField (name : String)
deriving DecidableEq, Repr

/-- Modelled from the spec: tag normalization (§4.1) — a single bare
string is coerced into a one-element ordered sequence before the
sequence constraint is checked. -/
def normalizeTags : RawTags → List String
  | .one s => [s]
  | .many xs => xs

/-- Modelled from the spec: the Schema Validator `validate` (§4.1),
implemented in the missing `@/validation/blog` as `blogMatterSchema`.
Rejects a record with a missing required field or an empty `title`;
normalizes `tags`; defaults `draft` to `false`. -/
def blogMatterSchema.parse (r : RawMatter) : Except ValidationError BlogMatter :=
  match r.title with
  | none => .error (.missingField "title")
  | some t =>
    if t = "" then .error (.invalidField "title")
    else
      match r.summary with
      | none => .error (.missingField "summary")
      | some s =>
        match r.publishedAt with
        | none => .error (.missingField "publishedAt")
        | some d =>
          match r.tags with
          | none => .error (.missingField "tags")
          | some tg =>
            .ok { title := t, summary := s, publishedAt := d,
                  updatedAt := r.updatedAt,
                  tags := normalizeTags tg,
                  draft := r.draft.getD false }

/-- Re-embedding of a validated record as a raw record (the identity
injection used to state idempotence of validation, spec §8). -/
def BlogMatter.toRaw (m : BlogMatter) : RawMatter :=
  { title := some m.title, summary := some m.summary,
    publishedAt := some m.publishedAt, updatedAt := m.updatedAt,
    tags := some (.many m.tags), draft := some m.draft }

/-- One content file as the document parser delivers it: the decoded
front-matter record (`none` when the front-matter block is malformed and
`readMdFile`/`serialize` would reject) and the body text. -/
structure ContentFile where
  matter : Option RawMatter
  body : String
deriving DecidableEq, Repr

/-- A directory entry of `public/content/blog`: either a single `.mdx`
file (the entry name carries the extension, e.g. `hello.mdx`) or a
directory holding a canonical `index.mdx` (the entry name is the bare
directory name).  Spec §4.2: the repository resolves either form
transparently. -/
inductive FsEntry where
  | file (name : String) (content : ContentFile)
  | dir (name : String) (content : ContentFile)
deriving DecidableEq, Repr

/-- The entry name as `readdirSync` reports it. -/
def FsEntry.name : FsEntry → String
  | .file n _ => n
  | .dir n _ => n

/-- The content blog directory (the Content Repository's backing store). -/
def readdir (fs : List FsEntry) : List String := fs.map FsEntry.name

/-- Embeds `file.split(".")[0]` from `src/app/blog/page.tsx` line 23/34:
the substring of the entry name before its first `.` (the whole name
when it has no dot). -/
def listingSlug (fileName : String) : String :=
  ⟨fileName.data.takeWhile (· ≠ '.')⟩

/-- Modelled from the spec: `lookupPublicFile(path, "mdx")` of the
missing `@/utils/utils` (spec §4.2) — resolves a slug to the single file
`slug ++ ".mdx"` when such an entry exists, otherwise to the directory
entry named `slug` (whose canonical `index.mdx` it returns), otherwise
fails. -/
def lookupPublicFile (fs : List FsEntry) (slug : String) : Option ContentFile :=
  match fs.find? (fun e => match e with
      | .file n _ => n = slug ++ ".mdx"
      | .dir _ _ => false) with
  | some (.file _ c) => some c
  | _ =>
    match fs.find? (fun e => match e with
        | .file _ _ => false
        | .dir n _ => n = slug) with
    | some (.dir _ c) => some c
    | _ => none

/-- A listing entry: the validated front matter together with the slug,
matching `{...blogMatterSchema.parse(md.frontmatter), slug:
files[i].split(".")[0]}` in `src/app/blog/page.tsx` lines 32-35. -/
structure Post extends BlogMatter where
  slug : String
deriving DecidableEq, Repr

/-- Failure of one item during the index build: the lookup/read step
rejects (missing or malformed file), or schema validation rejects. -/
inductive BuildError where
  | readFailed (name : String)
  | validation (e : ValidationError)
deriving DecidableEq, Repr

/-- Processing of one enumerated entry name in the listing page
pipeline (`src/app/blog/page.tsx` lines 19-35): resolve the name's slug
to a content file, decode its front matter, validate it. -/
def processName (fs : List FsEntry) (name : String) : Except BuildError Post :=
  match lookupPublicFile fs (listingSlug name) with
  | none => .error (.readFailed name)
  | some c =>
    match c.matter with
    | none => .error (.readFailed name)
    | some r =>
      match blogMatterSchema.parse r with
      | .error e => .error (.validation e)
      | .ok m => .ok { toBlogMatter := m, slug := listingSlug name }

/-- Sequentially processes every enumerated name; the first failing item
aborts the whole build (`blogMatterSchema.parse` throws inside `.map`,
rejecting the entire listing render). -/
def collectPosts (fs : List FsEntry) : List String → Except BuildError (List Post)
  | [] => .ok []
  | n :: ns =>
    match processName fs n with
    | .error e => .error e
    | .ok p =>
      match collectPosts fs ns with
      | .error e => .error e
      | .ok ps => .ok (p :: ps)

/-- The descending-by-`publishedAt` order used by the listing sort:
`(a, b) => (a.publishedAt < b.publishedAt ? 1 : -1)` places `a` no later
than `b` exactly when `b.publishedAt <= a.publishedAt`. -/
def postGe (a b : Post) : Prop := b.publishedAt ≤ a.publishedAt

instance : DecidableRel postGe := fun a b =>
  inferInstanceAs (Decidable (b.publishedAt ≤ a.publishedAt))

instance : IsTotal Post postGe := ⟨fun a b => Nat.le_total b.publishedAt a.publishedAt⟩

instance : IsTrans Post postGe := ⟨fun _ _ _ hab hbc => Nat.le_trans hbc hab⟩

/-- The Index Builder (`Page` of `src/app/blog/page.tsx`, spec §4.4):
enumerate, read and validate every item, drop drafts unless
`includeDrafts` (the `IS_DEVELOPMENT` build flag), sort descending by
`publishedAt` with a stable sort. -/
def buildIndex (fs : List FsEntry) (includeDrafts : Bool) :
    Except BuildError (List Post) :=
  (collectPosts fs (readdir fs)).map fun posts =>
    List.insertionSort postGe (posts.filter fun p => !p.draft || includeDrafts)

/-- What the detail page (`Page` of `src/app/blog/[slug]/page.tsx`,
lines 74-135) renders for a successfully parsed item: title, publish
date, optional update date and tags are always shown; the draft notice
is shown exactly when `draft`; the body (`MDXRemote`) is rendered
exactly when `!draft || IS_DEVELOPMENT` (lines 120-129). -/
structure RenderedPage where
  title : String
  publishedAt : Nat
  updatedAt : Option Nat
  tags : List String
  draftNotice : Bool
  body : Option String
deriving DecidableEq, Repr

/-- Failure of a detail-page render after the file was found: the raw
document could not be parsed, or its metadata failed validation. -/
inductive PageError where
  | malformed
  | invalid (e : ValidationError)
deriving DecidableEq, Repr

/-- Outcome of a detail-page request. -/
inductive DetailResult where
  | notFound
  | failed (e : PageError)
  | page (p : RenderedPage)
deriving DecidableEq, Repr

/-- Renders the article markup of `src/app/blog/[slug]/page.tsx` lines
74-135 for validated matter `m` and body text. -/
def renderPage (m : BlogMatter) (body : String) (isDevelopment : Bool) : RenderedPage :=
  { title := m.title, publishedAt := m.publishedAt, updatedAt := m.updatedAt,
    tags := m.tags, draftNotice := m.draft,
    body := if !m.draft || isDevelopment then some body else none }

/-- The detail route `Page` (`src/app/blog/[slug]/page.tsx` lines
52-135): resolve the slug; a missing file yields the user-visible
"Post not Found" state before any read, parse or render is attempted;
otherwise parse and validate the front matter and render the article. -/
def detailPage (fs : List FsEntry) (slug : String) (isDevelopment : Bool) : DetailResult :=
  match lookupPublicFile fs slug with
  | none => .notFound
  | some c =>
    match c.matter with
    | none => .failed .malformed
    | some r =>
      match blogMatterSchema.parse r with
      | .error e => .failed (.invalid e)
      | .ok m => .page (renderPage m c.body isDevelopment)

/-- The `<head>` metadata record built by `generateMetadata`. -/
structure PageMeta where
  title : String
  description : Option String
deriving DecidableEq, Repr

/-- Embeds `generateMetadata` (`src/app/blog/[slug]/page.tsx` lines 31-42):
the resolve/read failure is caught (`.catch`), leaving `frontmatter`
undefined, so a missing file or unreadable front matter yields the
"Post Not Found" record; otherwise the raw (unvalidated) `title` is
suffixed with " | Blog" (an absent raw title interpolates as the string
"undefined") and the raw `summary` becomes the description. -/
def generateMetadata (fs : List FsEntry) (slug : String) : PageMeta :=
  match lookupPublicFile fs slug with
  | none => { title := "Post Not Found", description := some "" }
  | some c =>
    match c.matter with
    | none => { title := "Post Not Found", description := some "" }
    | some r =>
      { title := r.title.getD "undefined" ++ " | Blog",
        description := r.summary }

/-- The index of the last `.` in the character list, when there is one. -/
def lastDotPos : List Char → Option Nat
  | [] => none
  | c :: cs =>
    match lastDotPos cs with
    | some i => some (i + 1)
    | none => if c = '.' then some 0 else none

/-- Embeds `path.parse(fileName).name` from `generateStaticParams`
(`src/app/blog/[slug]/page.tsx` lines 43-49): Node strips the extension
that starts at the last `.` of the basename, except that a leading `.`
(dotfile) never starts an extension and the special name `..` is kept
whole. -/
def staticParamSlug (fileName : String) : String :=
  if fileName = ".." then fileName
  else
    match lastDotPos fileName.data with
    | none => fileName
    | some i => if i = 0 then fileName else ⟨fileName.data.take i⟩

/-- The decimal digit `d` (0-9) as a character. -/
def digitChar (d : Nat) : Char := Char.ofNat (48 + d)

/-- Decimal digits of `n`, most significant first (empty for 0); the
fuel argument only bounds the recursion depth and any value `≥ n`
yields the same digits. -/
def natDigitsAux : Nat → Nat → List Char
  | _, 0 => []
  | 0, _ => []
  | fuel + 1, n + 1 =>
    natDigitsAux fuel ((n + 1) / 10) ++ [digitChar ((n + 1) % 10)]

/-- Decimal digits of `n`, most significant first (empty for 0). -/
def natDigits (n : Nat) : List Char := natDigitsAux n n

/-- Decimal rendering of `n` (the `${n}` interpolation of the numeric
suffix). -/
def natToStr (n : Nat) : String :=
  match n with
  | 0 => "0"
  | _ => ⟨natDigits n⟩

/-- Modelled from the spec: the slug derivation of heading-anchor
assignment (§4.5 step 2, performed by the external `rehype-slug`
plugin): lowercase, with every run of non-alphanumeric characters
collapsed to a single hyphen. -/
def slugAux : List Char → List Char
  | [] => []
  | c :: cs =>
    if c.isAlphanum then c.toLower :: slugAux cs
    else
      match slugAux cs with
      | [] => ['-']
      | d :: ds => if d = '-' then d :: ds else '-' :: d :: ds

/-- Slug of one heading's text. -/
def slugify (s : String) : String := ⟨slugAux s.data⟩

/-- The anchor assigned to the `n`-th occurrence (0-based) of a base
slug: the base itself first, then the base with numeric suffixes
starting at 1. -/
def anchorName (base : String) (n : Nat) : String :=
  if n = 0 then base else base ++ "-" ++ natToStr n

/-- How many earlier headings already used base slug `s`, per the
seen-count table (first matching key wins, like the slugger's map). -/
def countOf : List (String × Nat) → String → Nat
  | [], _ => 0
  | (k, n) :: rest, s => if k = s then n else countOf rest s

/-- Looks up and increments the occurrence count of base slug `s`. -/
def bumpCount : List (String × Nat) → String → Nat × List (String × Nat)
  | [], s => (0, [(s, 1)])
  | (k, n) :: rest, s =>
    if k = s then (n, (k, n + 1) :: rest)
    else
      let r := bumpCount rest s
      (r.1, (k, n) :: r.2)

/-- Modelled from the spec: collision disambiguation of heading-anchor
assignment (§4.5 step 2) — every heading gets its base slug, and each
repeated base slug within the document gets a numeric suffix counting
its earlier occurrences. -/
def assignAux (seen : List (String × Nat)) : List String → List String
  | [] => []
  | h :: hs =>
    let base := slugify h
    let r := bumpCount seen base
    anchorName base r.1 :: assignAux r.2 hs

/-- Anchors of all headings of one document, in order. -/
def assignAnchors (headings : List String) : List String := assignAux [] headings

/-! ## Facts about the schema validator -/

/-- Successful validation forces the record to have had every required
field, and fixes the validated fields in terms of the raw ones. -/
theorem parse_ok_iff (r : RawMatter) (m : BlogMatter) :
    blogMatterSchema.parse r = .ok m ↔
      ∃ t s d tg, r.title = some t ∧ t ≠ "" ∧ r.summary = some s ∧
        r.publishedAt = some d ∧ r.tags = some tg ∧
        m = { title := t, summary := s, publishedAt := d,
              updatedAt := r.updatedAt, tags := normalizeTags tg,
              draft := r.draft.getD false } := by
  obtain ⟨ot, os, od, ou, otg, odr⟩ := r
  constructor
  · intro h
    cases ot with
    | none => simp [blogMatterSchema.parse] at h
    | some t =>
      by_cases he : t = ""
      · simp [blogMatterSchema.parse, he] at h
      · cases os with
        | none => simp [blogMatterSchema.parse, he] at h
        | some s =>
          cases od with
          | none => simp [blogMatterSchema.parse, he] at h
          | some d =>
            cases otg with
            | none => simp [blogMatterSchema.parse, he] at h
            | some tg =>
              simp only [blogMatterSchema.parse, if_neg he] at h
              exact ⟨t, s, d, tg, rfl, he, rfl, rfl, rfl, ((Except.ok.injEq _ _).mp h).symm⟩
  · rintro ⟨t, s, d, tg, ht, he, hs, hd, htg, hm⟩
    cases ht; cases hs; cases hd; cases htg
    simp [blogMatterSchema.parse, if_neg he, hm]

/-- C7: schema validation is idempotent on valid input — re-validating
an already-validated record yields the same `ValidatedMetadata`. -/
theorem parse_idempotent (r : RawMatter) (m : BlogMatter)
    (h : blogMatterSchema.parse r = .ok m) :
    blogMatterSchema.parse m.toRaw = .ok m := by
  obtain ⟨t, s, d, tg, _, he, _, _, _, hm⟩ := (parse_ok_iff r m).mp h
  refine (parse_ok_iff m.toRaw m).mpr
    ⟨m.title, m.summary, m.publishedAt, .many m.tags, rfl, ?_, rfl, rfl, rfl, ?_⟩
  · rw [hm]; exact he
  · cases m; rfl

/-- Witness for `parse_idempotent` at a concrete record. -/
theorem parse_idempotent_witness :
    blogMatterSchema.parse
        (BlogMatter.mk "Hello" "s" 20240101 none ["World"] false).toRaw =
      .ok (BlogMatter.mk "Hello" "s" 20240101 none ["World"] false) :=
  parse_idempotent
    (RawMatter.mk (some "Hello") (some "s") (some 20240101) none
      (some (.one "World")) none)
    (BlogMatter.mk "Hello" "s" 20240101 none ["World"] false) (by rfl)

/-- C6: a bare-string `tags` value is coerced to the one-element
sequence `[v]` by successful validation. -/
theorem parse_bare_tag (r : RawMatter) (m : BlogMatter) (v : String)
    (h : blogMatterSchema.parse r = .ok m) (htg : r.tags = some (.one v)) :
    m.tags = [v] := by
  obtain ⟨t, s, d, tg, _, _, _, _, htg', hm⟩ := (parse_ok_iff r m).mp h
  rw [htg] at htg'
  cases htg'
  rw [hm]
  rfl

/-- Witness for `parse_bare_tag`: the end-to-end scenario
`hello.mdx` with `tags: World` validates to `tags = ["World"]`,
`draft = false`. -/
theorem parse_bare_tag_witness :
    (BlogMatter.mk "Hello" "s" 20240101 none ["World"] false).tags = ["World"] :=
  parse_bare_tag
    (RawMatter.mk (some "Hello") (some "s") (some 20240101) none
      (some (.one "World")) none)
    (BlogMatter.mk "Hello" "s" 20240101 none ["World"] false) "World"
    (by rfl) rfl

/-! ## The detail route -/

/-- C4: an identifier with no backing content file yields the
user-visible `notFound` state — not a crash, and no parse or render of
a body contributes to the result — in either build mode. -/
theorem detailPage_notFound (fs : List FsEntry) (slug : String)
    (h : lookupPublicFile fs slug = none) (isDevelopment : Bool) :
    detailPage fs slug isDevelopment = .notFound := by
  unfold detailPage
  rw [h]

/-- Witness for `detailPage_notFound`: an empty repository. -/
theorem detailPage_notFound_witness :
    detailPage [] "missing" false = .notFound :=
  detailPage_notFound [] "missing" (by rfl) false

/-- C9: a draft item's detail page always shows title, publish date,
update date and tags together with the draft notice; the body is
omitted in a production build and rendered in a development build. -/
theorem detailPage_draft (fs : List FsEntry) (slug : String)
    (c : ContentFile) (r : RawMatter) (m : BlogMatter)
    (hl : lookupPublicFile fs slug = some c) (hm : c.matter = some r)
    (hv : blogMatterSchema.parse r = .ok m) (hd : m.draft = true) :
    detailPage fs slug false =
      .page { title := m.title, publishedAt := m.publishedAt,
              updatedAt := m.updatedAt, tags := m.tags,
              draftNotice := true, body := none } ∧
    detailPage fs slug true =
      .page { title := m.title, publishedAt := m.publishedAt,
              updatedAt := m.updatedAt, tags := m.tags,
              draftNotice := true, body := some c.body } := by
  simp only [detailPage, hl, hm, hv, renderPage, hd]
  exact ⟨rfl, rfl⟩

/-- Witness for `detailPage_draft` at a one-item repository holding a
draft post. -/
theorem detailPage_draft_witness :
    detailPage
        [.file "d.mdx" ⟨some (RawMatter.mk (some "D") (some "s") (some 20240101)
          none (some (.many [])) (some true)), "body"⟩] "d" false =
      .page { title := "D", publishedAt := 20240101, updatedAt := none,
              tags := [], draftNotice := true, body := none } ∧
    detailPage
        [.file "d.mdx" ⟨some (RawMatter.mk (some "D") (some "s") (some 20240101)
          none (some (.many [])) (some true)), "body"⟩] "d" true =
      .page { title := "D", publishedAt := 20240101, updatedAt := none,
              tags := [], draftNotice := true, body := some "body" } :=
  detailPage_draft _ "d"
    ⟨some (RawMatter.mk (some "D") (some "s") (some 20240101) none
      (some (.many [])) (some true)), "body"⟩
    (RawMatter.mk (some "D") (some "s") (some 20240101) none
      (some (.many [])) (some true))
    (BlogMatter.mk "D" "s" 20240101 none [] true)
    (by rfl) rfl (by rfl) rfl

/-- C10: the detail route's metadata generation is total: a missing
file or unreadable front matter yields the "Post Not Found" record with
empty description, and a readable front matter yields the raw title
suffixed with " | Blog" and the raw summary as description. -/
theorem generateMetadata_total (fs : List FsEntry) (slug : String) :
    (lookupPublicFile fs slug = none →
      generateMetadata fs slug = ⟨"Post Not Found", some ""⟩) ∧
    (∀ c, lookupPublicFile fs slug = some c → c.matter = none →
      generateMetadata fs slug = ⟨"Post Not Found", some ""⟩) ∧
    (∀ c r t, lookupPublicFile fs slug = some c → c.matter = some r →
      r.title = some t →
      generateMetadata fs slug = ⟨t ++ " | Blog", r.summary⟩) := by
  refine ⟨fun h => ?_, fun c hl hm => ?_, fun c r t hl hm ht => ?_⟩
  · unfold generateMetadata; rw [h]
  · simp only [generateMetadata, hl, hm]
  · simp only [generateMetadata, hl, hm, ht, Option.getD_some]

/-- Witness for `generateMetadata_total`: a missing slug yields the
"Post Not Found" record and a present one yields the suffixed title
with the item's summary. -/
theorem generateMetadata_total_witness :
    generateMetadata [.file "a.mdx" ⟨some (RawMatter.mk (some "A") (some "sum")
        (some 20240101) none (some (.one "t")) none), "b"⟩] "missing" =
      ⟨"Post Not Found", some ""⟩ ∧
    generateMetadata [.file "a.mdx" ⟨some (RawMatter.mk (some "A") (some "sum")
        (some 20240101) none (some (.one "t")) none), "b"⟩] "a" =
      ⟨"A | Blog", some "sum"⟩ :=
  ⟨(generateMetadata_total _ "missing").1 (by rfl),
   (generateMetadata_total _ "a").2.2
     ⟨some (RawMatter.mk (some "A") (some "sum") (some 20240101) none
       (some (.one "t")) none), "b"⟩
     (RawMatter.mk (some "A") (some "sum") (some 20240101) none
       (some (.one "t")) none)
     "A" (by rfl) rfl rfl⟩

/-! ## The index builder -/

/-- One failing item makes the sequential collection of the whole
listing fail. -/
theorem collectPosts_error (fs : List FsEntry) :
    ∀ (ns : List String) (n : String), n ∈ ns →
      (∃ e, processName fs n = .error e) →
      ∃ e', collectPosts fs ns = .error e' := by
  intro ns
  induction ns with
  | nil => intro n hn; cases hn
  | cons hd tl ih =>
    rintro n hn ⟨e, he⟩
    cases hn with
    | head => exact ⟨e, by simp [collectPosts, he]⟩
    | tail _ htl =>
      cases hp : processName fs hd with
      | error e2 => exact ⟨e2, by simp [collectPosts, hp]⟩
      | ok p =>
        obtain ⟨e', he'⟩ := ih n htl ⟨e, he⟩
        exact ⟨e', by simp [collectPosts, hp, he']⟩

/-- C3: if any enumerated item's metadata fails schema validation, the
whole index build fails — `buildIndex` never returns a partial listing
that skips the offending item. -/
theorem buildIndex_aborts (fs : List FsEntry) (name : String)
    (e : ValidationError) (hmem : name ∈ readdir fs)
    (hfail : processName fs name = .error (.validation e))
    (includeDrafts : Bool) :
    ∃ e', buildIndex fs includeDrafts = .error e' := by
  obtain ⟨e', he'⟩ :=
    collectPosts_error fs (readdir fs) name hmem ⟨.validation e, hfail⟩
  exact ⟨e', by simp [buildIndex, he', Except.map]⟩

/-- Witness for `buildIndex_aborts`: a repository whose single item is
missing the required `summary` field aborts the listing build with that
validation error. -/
theorem buildIndex_aborts_witness :
    buildIndex [.file "b.mdx" ⟨some (RawMatter.mk (some "B") none
        (some 20240101) none (some (.one "World")) none), "body"⟩] false =
      .error (.validation (.missingField "summary")) ∧
    ∃ e', buildIndex [.file "b.mdx" ⟨some (RawMatter.mk (some "B") none
        (some 20240101) none (some (.one "World")) none), "body"⟩] false =
      .error e' :=
  ⟨by rfl,
   buildIndex_aborts
     [.file "b.mdx" ⟨some (RawMatter.mk (some "B") none (some 20240101) none
       (some (.one "World")) none), "body"⟩]
     "b.mdx" (.missingField "summary") (by simp [readdir, FsEntry.name])
     (by rfl) false⟩

/-- C1: a successful index build is sorted descending by `publishedAt`:
every adjacent pair `(a, b)` of the result satisfies
`b.publishedAt ≤ a.publishedAt`. -/
theorem buildIndex_sorted (fs : List FsEntry) (includeDrafts : Bool)
    (out : List Post) (h : buildIndex fs includeDrafts = .ok out) :
    List.Chain' postGe out := by
  unfold buildIndex at h
  cases hc : collectPosts fs (readdir fs) with
  | error e => rw [hc] at h; exact absurd h (by simp [Except.map])
  | ok posts =>
    rw [hc] at h
    have hout : out =
        List.insertionSort postGe
          (posts.filter fun p => !p.draft || includeDrafts) := by
      simpa [Except.map] using h.symm
    rw [hout]
    exact List.chain'_iff_pairwise.mpr (List.sorted_insertionSort postGe _)

/-- Witness for `buildIndex_sorted`: of two items published
`2024-01-01` and `2024-06-01`, the June one is listed first, and the
listing is adjacently sorted. -/
theorem buildIndex_sorted_witness :
    buildIndex [.file "jan.mdx" ⟨some (RawMatter.mk (some "Jan") (some "s")
        (some 20240101) none (some (.one "t")) none), "a"⟩,
      .file "jun.mdx" ⟨some (RawMatter.mk (some "Jun") (some "s")
        (some 20240601) none (some (.one "t")) none), "b"⟩] false =
      .ok [{ toBlogMatter := BlogMatter.mk "Jun" "s" 20240601 none ["t"] false,
             slug := "jun" },
           { toBlogMatter := BlogMatter.mk "Jan" "s" 20240101 none ["t"] false,
             slug := "jan" }] ∧
    List.Chain' postGe
      [{ toBlogMatter := BlogMatter.mk "Jun" "s" 20240601 none ["t"] false,
         slug := "jun" },
       { toBlogMatter := BlogMatter.mk "Jan" "s" 20240101 none ["t"] false,
         slug := "jan" }] :=
  ⟨by rfl,
   buildIndex_sorted
     [.file "jan.mdx" ⟨some (RawMatter.mk (some "Jan") (some "s")
       (some 20240101) none (some (.one "t")) none), "a"⟩,
      .file "jun.mdx" ⟨some (RawMatter.mk (some "Jun") (some "s")
       (some 20240601) none (some (.one "t")) none), "b"⟩] false _ (by rfl)⟩

/-- C2: with both build modes succeeding, every validated item with
`draft = true` is absent from the production index and present in the
development index, every item with `draft = false` is present in both,
and a raw record without a `draft` field validates to `draft = false`. -/
theorem buildIndex_drafts (fs : List FsEntry) (posts prodOut devOut : List Post)
    (hc : collectPosts fs (readdir fs) = .ok posts)
    (hp : buildIndex fs false = .ok prodOut)
    (hd : buildIndex fs true = .ok devOut) :
    (∀ p ∈ posts, p.draft = true → p ∉ prodOut ∧ p ∈ devOut) ∧
    (∀ p ∈ posts, p.draft = false → p ∈ prodOut ∧ p ∈ devOut) ∧
    (∀ (r : RawMatter) (m : BlogMatter), blogMatterSchema.parse r = .ok m →
      r.draft = none → m.draft = false) := by
  unfold buildIndex at hp hd
  rw [hc] at hp hd
  have hprod : prodOut =
      List.insertionSort postGe (posts.filter fun p => !p.draft || false) := by
    simpa [Except.map] using hp.symm
  have hdev : devOut =
      List.insertionSort postGe (posts.filter fun p => !p.draft || true) := by
    simpa [Except.map] using hd.symm
  have hmemp : ∀ p : Post, p ∈ prodOut ↔
      p ∈ posts.filter fun p => !p.draft || false := fun p => by
    rw [hprod]; exact (List.perm_insertionSort postGe _).mem_iff
  have hmemd : ∀ p : Post, p ∈ devOut ↔
      p ∈ posts.filter fun p => !p.draft || true := fun p => by
    rw [hdev]; exact (List.perm_insertionSort postGe _).mem_iff
  refine ⟨fun p hp' hdr => ⟨?_, ?_⟩, fun p hp' hdr => ⟨?_, ?_⟩, fun r m hv hn => ?_⟩
  · rw [hmemp]
    simp [List.mem_filter, hdr]
  · rw [hmemd]
    simp [List.mem_filter, hdr, hp']
  · rw [hmemp]
    simp [List.mem_filter, hdr, hp']
  · rw [hmemd]
    simp [List.mem_filter, hdr, hp']
  · obtain ⟨t, s, d, tg, _, _, _, _, _, hm⟩ := (parse_ok_iff r m).mp hv
    rw [hm, hn]
    rfl

/-- Witness for `buildIndex_drafts`: a two-item repository with one
draft; the draft is hidden from the production index and listed in the
development index. -/
theorem buildIndex_drafts_witness :
    (Post.mk (BlogMatter.mk "D" "s" 20240601 none ["t"] true) "dr" ∉
        [Post.mk (BlogMatter.mk "P" "s" 20240101 none ["t"] false) "pub"] ∧
      Post.mk (BlogMatter.mk "D" "s" 20240601 none ["t"] true) "dr" ∈
        [Post.mk (BlogMatter.mk "D" "s" 20240601 none ["t"] true) "dr",
         Post.mk (BlogMatter.mk "P" "s" 20240101 none ["t"] false) "pub"]) ∧
    (Post.mk (BlogMatter.mk "P" "s" 20240101 none ["t"] false) "pub" ∈
        [Post.mk (BlogMatter.mk "P" "s" 20240101 none ["t"] false) "pub"] ∧
      Post.mk (BlogMatter.mk "P" "s" 20240101 none ["t"] false) "pub" ∈
        [Post.mk (BlogMatter.mk "D" "s" 20240601 none ["t"] true) "dr",
         Post.mk (BlogMatter.mk "P" "s" 20240101 none ["t"] false) "pub"]) := by
  have h := buildIndex_drafts
    [.file "pub.mdx" ⟨some (RawMatter.mk (some "P") (some "s")
      (some 20240101) none (some (.one "t")) none), "a"⟩,
     .file "dr.mdx" ⟨some (RawMatter.mk (some "D") (some "s")
      (some 20240601) none (some (.one "t")) (some true)), "b"⟩]
    [Post.mk (BlogMatter.mk "P" "s" 20240101 none ["t"] false) "pub",
     Post.mk (BlogMatter.mk "D" "s" 20240601 none ["t"] true) "dr"]
    [Post.mk (BlogMatter.mk "P" "s" 20240101 none ["t"] false) "pub"]
    [Post.mk (BlogMatter.mk "D" "s" 20240601 none ["t"] true) "dr",
     Post.mk (BlogMatter.mk "P" "s" 20240101 none ["t"] false) "pub"]
    (by rfl) (by rfl) (by rfl)
  exact ⟨h.1 _ (by simp) rfl, h.2.1 _ (by simp) rfl⟩

/-! ## Slug derivations of the two routes -/

theorem takeWhile_ne_dot_append (l r : List Char) (h : '.' ∉ l) :
    (l ++ '.' :: r).takeWhile (· ≠ '.') = l := by
  induction l with
  | nil => rw [List.nil_append, List.takeWhile_cons_of_neg (by simp)]
  | cons c cs ih =>
    have hc : c ≠ '.' := fun hc => h (hc ▸ List.mem_cons_self _ _)
    have hcs : '.' ∉ cs := fun hm => h (List.mem_cons_of_mem _ hm)
    rw [List.cons_append, List.takeWhile_cons_of_pos (by simp [hc]), ih hcs]

theorem takeWhile_ne_dot_of_not_mem (l : List Char) (h : '.' ∉ l) :
    l.takeWhile (· ≠ '.') = l := by
  induction l with
  | nil => rfl
  | cons c cs ih =>
    have hc : c ≠ '.' := fun hc => h (hc ▸ List.mem_cons_self _ _)
    have hcs : '.' ∉ cs := fun hm => h (List.mem_cons_of_mem _ hm)
    rw [List.takeWhile_cons_of_pos (by simp [hc]), ih hcs]

theorem lastDotPos_of_not_mem (l : List Char) (h : '.' ∉ l) :
    lastDotPos l = none := by
  induction l with
  | nil => rfl
  | cons c cs ih =>
    have hc : c ≠ '.' := fun hc => h (hc ▸ List.mem_cons_self _ _)
    have hcs : '.' ∉ cs := fun hm => h (List.mem_cons_of_mem _ hm)
    simp [lastDotPos, ih hcs, hc]

theorem lastDotPos_append (l r : List Char) (k : Nat)
    (h : lastDotPos r = some k) :
    lastDotPos (l ++ r) = some (l.length + k) := by
  induction l with
  | nil => simpa using h
  | cons c cs ih =>
    rw [List.cons_append]
    show (match lastDotPos (cs ++ r) with
      | some i => some (i + 1)
      | none => if c = '.' then some 0 else none) = some ((c :: cs).length + k)
    rw [ih]
    show some (cs.length + k + 1) = some (cs.length + 1 + k)
    congr 1
    omega

/-- Counterexample to C5 as stated: on the filename `a.b.mdx` the
listing page derives the identifier `a` (substring before the first
dot) while `generateStaticParams` derives `a.b` (basename without its
final extension), so the two derivations do not agree on every
filename. -/
theorem slug_derivations_counterexample :
    listingSlug "a.b.mdx" ≠ staticParamSlug "a.b.mdx" := by decide

/-- C5 (amended): on every filename of the form `stem.ext` whose stem
is non-empty and where neither stem nor extension contains a further
dot — which covers every enumerated content filename of this
repository — both derivations yield the stem (the filename without its
extension); and a dot-free filename (a content directory name) is its
own identifier under both derivations. -/
theorem slug_derivations_agree (stem ext : String) (hne : stem ≠ "")
    (hs : '.' ∉ stem.data) (he : '.' ∉ ext.data) :
    listingSlug (stem ++ "." ++ ext) = stem ∧
    staticParamSlug (stem ++ "." ++ ext) = stem ∧
    ∀ f : String, '.' ∉ f.data → listingSlug f = f ∧ staticParamSlug f = f := by
  obtain ⟨sd⟩ := stem
  have hsd : sd ≠ [] := fun h => hne (by rw [h])
  have hdata : (String.mk sd ++ "." ++ ext).data = sd ++ '.' :: ext.data := by
    simp [String.data_append]
  refine ⟨?_, ?_, ?_⟩
  · unfold listingSlug
    rw [hdata, takeWhile_ne_dot_append sd ext.data hs]
  · unfold staticParamSlug
    have hnotdots : String.mk sd ++ "." ++ ext ≠ ".." := by
      intro hcontra
      have := congrArg String.data hcontra
      rw [hdata] at this
      cases sd with
      | nil => exact hsd rfl
      | cons c cs =>
        have hc : c ≠ '.' := fun hc => hs (hc ▸ List.mem_cons_self _ _)
        rw [List.cons_append] at this
        injection this with h1 _
        exact hc h1
    rw [if_neg hnotdots, hdata]
    have hlast : lastDotPos (sd ++ '.' :: ext.data) = some sd.length := by
      have h0 : lastDotPos ('.' :: ext.data) = some 0 := by
        simp [lastDotPos, lastDotPos_of_not_mem ext.data he]
      simpa using lastDotPos_append sd ('.' :: ext.data) 0 h0
    rw [hlast]
    have hlen : sd.length ≠ 0 := fun h => hsd (List.length_eq_zero.mp h)
    simp only [if_neg hlen]
    rw [List.take_left]
  · intro f hf
    obtain ⟨fd⟩ := f
    constructor
    · unfold listingSlug
      rw [takeWhile_ne_dot_of_not_mem fd hf]
    · unfold staticParamSlug
      have hfne : String.mk fd ≠ ".." := by
        intro h
        rw [h] at hf
        exact hf (by decide)
      rw [if_neg hfne, lastDotPos_of_not_mem fd hf]

/-- Witness for `slug_derivations_agree` at the repository's own entry
names: the file `understanding-how-let-declaration-work-in-for-loop.mdx`
and the directory `what-makes-a-good-dashboard`. -/
theorem slug_derivations_agree_witness :
    listingSlug "understanding-how-let-declaration-work-in-for-loop.mdx" =
      "understanding-how-let-declaration-work-in-for-loop" ∧
    staticParamSlug "understanding-how-let-declaration-work-in-for-loop.mdx" =
      "understanding-how-let-declaration-work-in-for-loop" ∧
    listingSlug "what-makes-a-good-dashboard" = "what-makes-a-good-dashboard" ∧
    staticParamSlug "what-makes-a-good-dashboard" = "what-makes-a-good-dashboard" := by
  have h := slug_derivations_agree
    "understanding-how-let-declaration-work-in-for-loop" "mdx"
    (by decide) (by decide) (by decide)
  have h2 := h.2.2 "what-makes-a-good-dashboard" (by decide)
  exact ⟨h.1, h.2.1, h2.1, h2.2⟩

/-! ## Heading anchors -/

theorem digitChar_toNat : ∀ d : Nat, d < 10 → (digitChar d).toNat = 48 + d := by
  decide

/-- Numeric value of a decimal digit character. -/
def fromDigit (c : Char) : Nat := c.toNat - 48

/-- Decimal value of a digit string. -/
def fromDigits (l : List Char) : Nat :=
  l.foldl (fun a c => a * 10 + fromDigit c) 0

theorem natDigits_ne_nil (n : Nat) (h : n ≠ 0) : natDigits n ≠ [] := by
  cases n with
  | zero => exact absurd rfl h
  | succ m => simp [natDigits, natDigitsAux]

theorem foldl_natDigitsAux : ∀ (fuel n : Nat), n ≤ fuel → ∀ acc : Nat,
    (natDigitsAux fuel n).foldl (fun a c => a * 10 + fromDigit c) acc =
      acc * 10 ^ (natDigitsAux fuel n).length + n := by
  intro fuel
  induction fuel with
  | zero =>
    intro n hn acc
    interval_cases n
    simp [natDigitsAux]
  | succ f ih =>
    intro n hn acc
    cases n with
    | zero => simp [natDigitsAux]
    | succ m =>
      have hle : (m + 1) / 10 ≤ f := by
        have := Nat.div_lt_self (Nat.succ_pos m) (show 1 < 10 by omega)
        omega
      rw [show natDigitsAux (f + 1) (m + 1) =
            natDigitsAux f ((m + 1) / 10) ++ [digitChar ((m + 1) % 10)] from rfl,
        List.foldl_append, ih ((m + 1) / 10) hle acc]
      simp only [List.foldl_cons, List.foldl_nil, List.length_append,
        List.length_cons, List.length_nil, Nat.zero_add]
      have hd : fromDigit (digitChar ((m + 1) % 10)) = (m + 1) % 10 := by
        unfold fromDigit
        rw [digitChar_toNat _ (Nat.mod_lt _ (by omega))]
        omega
      rw [hd]
      have hqr : 10 * ((m + 1) / 10) + (m + 1) % 10 = m + 1 :=
        Nat.div_add_mod (m + 1) 10
      calc (acc * 10 ^ (natDigitsAux f ((m + 1) / 10)).length + (m + 1) / 10) *
            10 + (m + 1) % 10
          = acc * (10 ^ (natDigitsAux f ((m + 1) / 10)).length * 10) +
            (10 * ((m + 1) / 10) + (m + 1) % 10) := by ring
        _ = acc * 10 ^ ((natDigitsAux f ((m + 1) / 10)).length + 1) + (m + 1) := by
            rw [hqr, pow_succ]

theorem fromDigits_natToStr (n : Nat) : fromDigits (natToStr n).data = n := by
  cases n with
  | zero => rfl
  | succ m =>
    show fromDigits (natDigits (m + 1)) = m + 1
    unfold fromDigits natDigits
    rw [foldl_natDigitsAux (m + 1) (m + 1) (Nat.le_refl _)]
    simp

theorem natToStr_inj (n m : Nat) (h : natToStr n = natToStr m) : n = m := by
  rw [← fromDigits_natToStr n, ← fromDigits_natToStr m, h]

theorem natToStr_length_pos (n : Nat) : 0 < (natToStr n).length := by
  cases n with
  | zero => decide
  | succ m =>
    show 0 < (natDigits (m + 1)).length
    exact List.length_pos.mpr (natDigits_ne_nil (m + 1) (by omega))

theorem anchorName_inj (b : String) (n m : Nat)
    (h : anchorName b n = anchorName b m) : n = m := by
  unfold anchorName at h
  by_cases hn : n = 0 <;> by_cases hm : m = 0
  · rw [hn, hm]
  · rw [if_pos hn, if_neg hm] at h
    have hl := congrArg String.length h
    rw [String.length_append, String.length_append] at hl
    have hp := natToStr_length_pos m
    have hone : ("-" : String).length = 1 := rfl
    omega
  · rw [if_neg hn, if_pos hm] at h
    have hl := congrArg String.length h
    rw [String.length_append, String.length_append] at hl
    have hp := natToStr_length_pos n
    have hone : ("-" : String).length = 1 := rfl
    omega
  · rw [if_neg hn, if_neg hm] at h
    have hd := congrArg String.data h
    rw [String.data_append, String.data_append, String.data_append,
      String.data_append] at hd
    exact natToStr_inj n m (String.ext (List.append_cancel_left hd))

theorem bumpCount_fst (seen : List (String × Nat)) (s : String) :
    (bumpCount seen s).1 = countOf seen s := by
  induction seen with
  | nil => rfl
  | cons kv rest ih =>
    obtain ⟨k, n⟩ := kv
    by_cases hk : k = s
    · simp [bumpCount, countOf, hk]
    · simp [bumpCount, countOf, hk, ih]

theorem countOf_bumpCount (seen : List (String × Nat)) (s t : String) :
    countOf (bumpCount seen s).2 t =
      countOf seen t + (if s = t then 1 else 0) := by
  induction seen with
  | nil => by_cases ht : s = t <;> simp [bumpCount, countOf, ht]
  | cons kv rest ih =>
    obtain ⟨k, n⟩ := kv
    by_cases hk : k = s
    · subst hk
      by_cases ht : k = t
      · subst ht; simp [bumpCount, countOf]
      · simp [bumpCount, countOf, ht]
    · by_cases ht : k = t
      · subst ht
        have hst : ¬ k = s := hk
        simp [bumpCount, countOf, hst, if_neg (fun h : s = k => hk h.symm)]
      · simp [bumpCount, countOf, hk, ht, ih]

theorem countOf_le_bumpCount (seen : List (String × Nat)) (s t : String) :
    countOf seen t ≤ countOf (bumpCount seen s).2 t := by
  rw [countOf_bumpCount]
  split <;> omega

theorem assignAux_getElem? (hs : List String) :
    ∀ (seen : List (String × Nat)) (k : Nat) (tk : String),
      hs[k]? = some tk →
      ∃ m, countOf seen (slugify tk) ≤ m ∧
        (assignAux seen hs)[k]? = some (anchorName (slugify tk) m) := by
  induction hs with
  | nil => intro seen k tk h; simp at h
  | cons h t ih =>
    intro seen k tk hk
    cases k with
    | zero =>
      have h0 : h = tk := by simpa using hk
      subst h0
      refine ⟨countOf seen (slugify h), Nat.le_refl _, ?_⟩
      show (assignAux seen (h :: t))[0]? = _
      simp [assignAux, bumpCount_fst]
    | succ k' =>
      have hk' : t[k']? = some tk := by simpa using hk
      obtain ⟨m, hm, hget⟩ := ih (bumpCount seen (slugify h)).2 k' tk hk'
      refine ⟨m, Nat.le_trans (countOf_le_bumpCount seen (slugify h) (slugify tk)) hm, ?_⟩
      simpa [assignAux] using hget

theorem assignAux_pair (hs : List String) :
    ∀ (seen : List (String × Nat)) (i j : Nat), i < j →
      ∀ ti tj, hs[i]? = some ti → hs[j]? = some tj →
        slugify ti = slugify tj →
        (assignAux seen hs)[i]? ≠ (assignAux seen hs)[j]? := by
  induction hs with
  | nil => intro seen i j hij ti tj hti; simp at hti
  | cons h t ih =>
    intro seen i j hij ti tj hti htj hslug hcontra
    cases i with
    | zero =>
      obtain ⟨j', rfl⟩ : ∃ j', j = j' + 1 := ⟨j - 1, by omega⟩
      have h0 : h = ti := by simpa using hti
      subst h0
      have htj' : t[j']? = some tj := by simpa using htj
      obtain ⟨m, hm, hget⟩ :=
        assignAux_getElem? t (bumpCount seen (slugify h)).2 j' tj htj'
      have ha0 : (assignAux seen (h :: t))[0]? =
          some (anchorName (slugify h) (countOf seen (slugify h))) := by
        simp [assignAux, bumpCount_fst]
      have haj : (assignAux seen (h :: t))[j' + 1]? =
          (assignAux (bumpCount seen (slugify h)).2 t)[j']? := by
        simp [assignAux]
      rw [ha0, haj, hget] at hcontra
      rw [← hslug] at hget hm hcontra
      have hnm : countOf seen (slugify h) = m :=
        anchorName_inj _ _ _ (Option.some.inj hcontra)
      rw [countOf_bumpCount, if_pos rfl] at hm
      omega
    | succ i' =>
      obtain ⟨j', rfl⟩ : ∃ j', j = j' + 1 := ⟨j - 1, by omega⟩
      refine ih (bumpCount seen (slugify h)).2 i' j' (by omega) ti tj
        (by simpa using hti) (by simpa using htj) hslug ?_
      simpa [assignAux] using hcontra

/-- C8: heading-anchor assignment is collision-free for identical
heading text within one document — any two headings with the same text
receive distinct anchors (the base slug, then numeric suffixes counting
earlier occurrences). -/
theorem assignAnchors_distinct (headings : List String) (i j : Nat)
    (hij : i ≠ j) (ti tj : String)
    (hti : headings[i]? = some ti) (htj : headings[j]? = some tj)
    (htext : ti = tj) :
    (assignAnchors headings)[i]? ≠ (assignAnchors headings)[j]? := by
  rcases Nat.lt_or_ge i j with h | h
  · exact assignAux_pair headings [] i j h ti tj hti htj (by rw [htext])
  · have hji : j < i := by omega
    exact (assignAux_pair headings [] j i hji tj ti htj hti (by rw [htext])).symm

/-- Witness for `assignAnchors_distinct`: two headings `foo` produce
the distinct anchors `foo` and `foo-1`. -/
theorem assignAnchors_distinct_witness :
    assignAnchors ["foo", "foo"] = ["foo", "foo-1"] ∧
    (assignAnchors ["foo", "foo"])[0]? ≠ (assignAnchors ["foo", "foo"])[1]? :=
  ⟨by rfl,
   assignAnchors_distinct ["foo", "foo"] 0 1 (by omega) "foo" "foo"
     (by rfl) (by rfl) rfl⟩

end Portfolio
